import Mathlib

/-!
Verification of the scanning engine of the `c-` disk-cleanup repository
(`src/c_drive_cleaner/scanner.py`).  The Python source is shallowly embedded:
pure fragments become Lean functions, OS calls (`os.scandir`, `SHQueryRecycleBinW`,
`psutil.disk_partitions`, wall-clock time) become explicit parameters, and the
cooperatively-read cancellation flag becomes an explicit boolean (constant within
one pure traversal, an arrival oracle `Nat → Bool` at the `scan_all` loop).
Byte sizes and item counts are modelled as `Nat` (`st_size` and the shell's
aggregate counts are non-negative).  All string operations mirror CPython's
behaviour on the ASCII range used by the configuration data.
-/

namespace CDriveCleaner

/-- `ScanResult` dataclass (scanner.py lines 18-26). -/
structure ScanResult where
  item_id : String
  item_name : String
  total_size : Nat
  file_count : Nat
  files : List String
  error : Option String
deriving DecidableEq, Repr

/-- ASCII lower-casing of one character, as Python `str.lower` acts on ASCII. -/
def lowerChar (ch : Char) : Char :=
  if 'A' ≤ ch ∧ ch ≤ 'Z' then Char.ofNat (ch.toNat + 32) else ch

/-- Python `s.lower()` restricted to ASCII (all configuration strings are ASCII
or Chinese, and `str.lower` is the identity on the latter). -/
def toLowerStr (s : String) : String := ⟨s.data.map lowerChar⟩

/-- Python `needle in hay` on character lists (contiguous-substring test). -/
def containsCB (needle : List Char) : List Char → Bool
  | [] => needle.isEmpty
  | c :: cs => needle.isPrefixOf (c :: cs) || containsCB needle cs

/-- Python `s.startswith(pre)`. -/
def startsWithCB (pre s : String) : Bool := pre.data.isPrefixOf s.data

/-- Python slicing `s[n:]` (character based). -/
def dropStr (n : Nat) (s : String) : String := ⟨s.data.drop n⟩

/-- Path-separator characters recognised by `ntpath`. -/
def isSepChar (ch : Char) : Bool := ch = '\\' || ch = '/'

/-- `os.path.join(p, n)` as used on the scanner's inputs (`n` is a plain entry
name): a backslash is inserted unless `p` already ends with a separator or a
drive colon; `DirEntry.path` is built exactly this way by `os.scandir`. -/
def joinPath (p n : String) : String :=
  match p.data.getLast? with
  | some ch => if isSepChar ch || ch = ':' then p ++ n else p ++ "\\" ++ n
  | none => n

/-- Final path component (text after the last separator), as `pathlib` names it. -/
def lastComp (p : String) : List Char :=
  (p.data.reverse.takeWhile (fun ch => !isSepChar ch)).reverse

/-- Index of the last `'.'` in a name, if any. -/
def lastDotPos : List Char → Option Nat
  | [] => none
  | c :: cs =>
    match lastDotPos cs with
    | some i => some (i + 1)
    | none => if c = '.' then some 0 else none

/-- `pathlib.PurePath(path).suffix`: the last dotted extension of the final
component, empty when the only dot is leading or trailing. -/
def pySuffix (path : String) : String :=
  let name := lastComp path
  match lastDotPos name with
  | some i => if 0 < i ∧ i + 1 < name.length then ⟨name.drop i⟩ else ""
  | none => ""

/-- Python `name.startswith('.')`. -/
def headIsDot (n : String) : Bool :=
  match n.data with
  | c :: _ => c = '.'
  | [] => false

/-- The extension filter of `_scan_directory` (scanner.py lines 187-190):
`if extensions:` is Python truthiness, so `None` and the empty list both
disable the filter; otherwise the entry is skipped when the lower-cased
`pathlib` suffix of its path is not literally a member of the allowlist. -/
def extSkip (exts : Option (List String)) (path : String) : Bool :=
  match exts with
  | none => false
  | some [] => false
  | some l => !(l.contains (toLowerStr (pySuffix path)))

/-- The substring-pattern filter of `_scan_directory` (lines 192-194 and 203):
`if pattern and pattern.lower() not in entry.path.lower()`; an absent or empty
pattern never skips. -/
def patSkip (pat : Option String) (path : String) : Bool :=
  match pat with
  | none => false
  | some q => if q = "" then false else !(containsCB (toLowerStr q).data (toLowerStr path).data)

/- A directory listing as observed through `os.scandir`, in listing order.
`file`/`dir` are entries whose `is_file`/`is_dir` test (with
`follow_symlinks=False`) succeeds; `denied` stands for an entry whose per-entry
`stat`/type test raises `PermissionError`/`OSError` (the entry is skipped), and
also covers symbolic links (neither test is true).  A directory whose own
listing fails behaves exactly like a directory with no children. -/
mutual
inductive Entry where
  | file (name : String) (size : Nat)
  | dir (name : String) (mtime : Int) (children : EntryList)
  | denied (name : String)
inductive EntryList where
  | nil
  | cons (e : Entry) (es : EntryList)
end

/-- Drive-letter resolution of one path template inside `_scan_item`
(scanner.py lines 129-143), with the available-drives enumeration supplied as
a parameter. -/
def scanItemTargets (drive : String) (availableDrives : List String) (tmpl : String) : List String :=
  if drive = "ALL" then
    if startsWithCB "c:" (toLowerStr tmpl) then
      availableDrives.map (fun d => d ++ dropStr 2 tmpl)
    else [tmpl]
  else
    if startsWithCB "c:" (toLowerStr tmpl) then [drive ++ dropStr 2 tmpl]
    else [tmpl]

/-- Modelled from the claim C3's wording: a template is drive-anchored when it
begins with any drive letter followed by a colon. -/
def specDriveAnchored (tmpl : String) : Bool :=
  match tmpl.data with
  | a :: b :: _ => a.isAlpha && b = ':'
  | _ => false

/-- Modelled from the claim C3's wording: every drive-anchored template is
rewritten (one path per available drive under "ALL", the selected drive
otherwise); non-anchored templates pass through unchanged. -/
def specScanItemTargets (drive : String) (availableDrives : List String) (tmpl : String) : List String :=
  if specDriveAnchored tmpl then
    if drive = "ALL" then availableDrives.map (fun d => d ++ dropStr 2 tmpl)
    else [drive ++ dropStr 2 tmpl]
  else [tmpl]

/- `_scan_directory` (scanner.py lines 163-214), split into the per-entry body
(`scanDirEntry`, the `try` block at lines 184-211) and the listing loop
(`scanDirList`, lines 180-211).  The cancellation flag `c` is read at every
loop iteration (line 181); within one pure traversal it is a constant, so the
in-loop check is the guard of `scanDirList`.  A `PermissionError`/`OSError`
from `entry.stat()` after the filters pass has the same effect as `denied`. -/
mutual
def scanDirEntry (c : Bool) (exts : Option (List String)) (pat : Option String)
    (p : String) (r : ScanResult) : Entry → ScanResult
  | .file n sz =>
    let fp := joinPath p n
    if extSkip exts fp then r
    else if patSkip pat fp then r
    else { r with total_size := r.total_size + sz, file_count := r.file_count + 1,
                  files := r.files ++ [fp] }
  | .dir n _ cs =>
    let cp := joinPath p n
    if patSkip pat cp then scanDirList c exts pat cp r cs
    else scanDirList c exts none cp r cs
  | .denied _ => r
def scanDirList (c : Bool) (exts : Option (List String)) (pat : Option String)
    (p : String) (r : ScanResult) : EntryList → ScanResult
  | .nil => r
  | .cons e es => if c then r else scanDirList c exts pat p (scanDirEntry c exts pat p r e) es
end

/- Modelled from the claim C9's wording: the naive reference semantics that
checks the substring pattern against every file's full path individually and
never disables the filter when recursing into a subdirectory. -/
mutual
def scanDirEntryNaive (c : Bool) (exts : Option (List String)) (pat : Option String)
    (p : String) (r : ScanResult) : Entry → ScanResult
  | .file n sz =>
    let fp := joinPath p n
    if extSkip exts fp then r
    else if patSkip pat fp then r
    else { r with total_size := r.total_size + sz, file_count := r.file_count + 1,
                  files := r.files ++ [fp] }
  | .dir n _ cs => scanDirListNaive c exts pat (joinPath p n) r cs
  | .denied _ => r
def scanDirListNaive (c : Bool) (exts : Option (List String)) (pat : Option String)
    (p : String) (r : ScanResult) : EntryList → ScanResult
  | .nil => r
  | .cons e es => if c then r else scanDirListNaive c exts pat p (scanDirEntryNaive c exts pat p r e) es
end

/-- The `skip_dirs` exclusion set of `_scan_developer_junk`
(scanner.py lines 271-275). -/
def skipDirs : List String :=
  ["windows", "program files", "program files (x86)",
   "programdata", "appdata", ".git", ".svn", "system volume information",
   "$recycle.bin", "recovery", "msocache"]

/- `_get_dir_size_for_scan` (scanner.py lines 326-340): unconditional recursive
sum of contained file sizes, symbolic links not followed, per-entry errors
swallowed. -/
mutual
def getDirSizeEntry : Entry → Nat
  | .file _ sz => sz
  | .dir _ _ cs => getDirSizeForScan cs
  | .denied _ => 0
def getDirSizeForScan : EntryList → Nat
  | .nil => 0
  | .cons e es => getDirSizeEntry e + getDirSizeForScan es
end

/- `_depth_search` (scanner.py lines 290-324), split into the per-entry body
(`depthEntry`, the `try` block at lines 300-322) and the listing loop
(`depthList`).  The guard `if self._cancelled or depth > max_depth: return`
(line 292) and the in-loop cancellation check (line 297) are both constant for
one pure traversal, so they merge into the guard of `depthList` (an empty
listing returns the accumulator unchanged either way).  The nested tests at
lines 305 and 308 are one conjunction here: when the inner age test fails,
the source falls through to the very statement the `else` branch holds.  The
junk-name set
`junk` stands for the external `DEVELOPER_CLEAN_RULES` configuration, `now`
for `time.time()` and `threshold` for `AGE_THRESHOLD_DAYS * 24 * 3600`. -/
mutual
def depthEntry (c : Bool) (junk skipd : List String) (now threshold : Int)
    (maxDepth depth : Nat) (p : String) (r : ScanResult) : Entry → ScanResult
  | .file _ _ => r
  | .denied _ => r
  | .dir n mt cs =>
    let nl := toLowerStr n
    if junk.contains nl ∧ threshold < now - mt then
      { r with total_size := r.total_size + getDirSizeForScan cs,
               file_count := r.file_count + 1,
               files := r.files ++ [joinPath p n] }
    else if skipd.contains nl || headIsDot n then r
    else depthList c junk skipd now threshold maxDepth (depth + 1) (joinPath p n) r cs
def depthList (c : Bool) (junk skipd : List String) (now threshold : Int)
    (maxDepth depth : Nat) (p : String) (r : ScanResult) : EntryList → ScanResult
  | .nil => r
  | .cons e es =>
    if c || decide (maxDepth < depth) then r
    else depthList c junk skipd now threshold maxDepth depth p
      (depthEntry c junk skipd now threshold maxDepth depth p r e) es
end

/-- Outcome of the `SHQueryRecycleBinW` shell call in `_scan_recycle_bin`:
either a status code together with the reported aggregate byte size and item
count, or a raised exception with its message. -/
inductive RecycleQuery where
  | ok (ret : Int) (size : Nat) (numItems : Nat)
  | exn (msg : String)

/-- `_scan_recycle_bin` (scanner.py lines 216-257) with the shell query
supplied as a parameter. -/
def scanRecycleBin (itemId itemName : String) (q : RecycleQuery) : ScanResult :=
  match q with
  | .ok ret size num =>
    if ret = 0 then
      { item_id := itemId, item_name := itemName, total_size := size,
        file_count := num, files := [], error := none }
    else
      { item_id := itemId, item_name := itemName, total_size := 0,
        file_count := 0, files := [], error := some "无法获取回收站信息" }
  | .exn msg =>
    { item_id := itemId, item_name := itemName, total_size := 0,
      file_count := 0, files := [], error := some msg }

/-- Python `dict` assignment `self.results[item_id] = result` on an
insertion-ordered association list: overwrite in place when the key exists,
append otherwise. -/
def dictInsert (acc : List (String × ScanResult)) (k : String) (v : ScanResult) :
    List (String × ScanResult) :=
  match acc with
  | [] => [(k, v)]
  | (k0, v0) :: rest => if k0 = k then (k0, v) :: rest else (k0, v0) :: dictInsert rest k v

/-- Python `dict` lookup on the same representation. -/
def dictLookup : List (String × ScanResult) → String → Option ScanResult
  | [], _ => none
  | (k0, v0) :: rest, k => if k0 = k then some v0 else dictLookup rest k

/-- One record of the external `CLEANUP_ITEMS` rule configuration. -/
structure Item where
  id : String
  name : String
  special : Option String
  paths : List String
  extensions : Option (List String)
  pattern : Option String

/- ===  CPython binary64 model for the progress percentage  ===
`scan_all` computes `int((index / total_items) * 100)` (scanner.py line 85)
with float arithmetic: one correctly-rounded binary64 division followed by one
correctly-rounded binary64 multiplication by the exact float `100.0`, then
truncation toward zero.  The model below implements round-to-nearest-even
exactly, on fractions of natural numbers. -/

/-- Round `a / b` (with `b > 0`) to the nearest integer, ties to even. -/
def rheNat (a b : Nat) : Nat :=
  let f := a / b
  let r := a % b
  if 2 * r < b then f
  else if b < 2 * r then f + 1
  else if f % 2 = 0 then f else f + 1

/-- Fuel-bounded count of halvings of `a / b` until it drops below `2`
(for `b ≤ a` and enough fuel this is `⌊log2 (a / b)⌋`). -/
def upCount (a : Nat) : Nat → Nat → Nat
  | _, 0 => 0
  | b, fuel + 1 => if 2 * b ≤ a then upCount a (2 * b) fuel + 1 else 0

/-- Fuel-bounded count of doublings of `a / b` until it reaches `1`
(for `0 < a < b` and enough fuel, `a * 2 ^ downCount / b ∈ [1, 2)`). -/
def downCount (b : Nat) : Nat → Nat → Nat
  | _, 0 => 0
  | a, fuel + 1 => if a < b then downCount b (2 * a) fuel + 1 else 0

/-- The correctly-rounded binary64 value of the non-negative quotient `a / b`
(`b > 0`), returned as an exact fraction `(numerator, denominator)`.  Overflow
and subnormals are ignored; both are unreachable for the quotients the scanner
builds. -/
def fp64Pair (a b : Nat) : Nat × Nat :=
  if a = 0 then (0, 1)
  else
    let fuel := a + b + 64
    if b ≤ a then
      let k := upCount a b fuel
      if 52 ≤ k then (rheNat a (b * 2 ^ (k - 52)) * 2 ^ (k - 52), 1)
      else (rheNat (a * 2 ^ (52 - k)) b, 2 ^ (52 - k))
    else
      let m := downCount b a fuel
      (rheNat (a * 2 ^ (52 + m)) b, 2 ^ (52 + m))

/-- `int((index / total_items) * 100)` under CPython semantics
(scanner.py line 85): a correctly-rounded binary64 division, a
correctly-rounded binary64 multiplication by the exact float `100.0`, then
`int` truncation (floor, since the value is non-negative). -/
def progressPercent (index total : Nat) : Nat :=
  let d1 := fp64Pair index total
  let d2 := fp64Pair (100 * d1.1) d1.2
  d2.1 / d2.2

/-- Result state of one `scan_all` run: the populated results dict, the
sequence of progress notifications delivered to the callback, and the final
value of the cancellation flag. -/
structure ScanAllState where
  results : List (String × ScanResult)
  emitted : List (String × Nat)
  flag : Bool

/-- The per-rule loop of `scan_all` (scanner.py lines 74-99).  `arrive i`
tells whether an external `cancel()` call has landed between the previous
flag read and the read at the top of iteration `i`; the flag value observed
there is the running disjunction `b || arrive i`.  `dispatch` stands for the
strategy choice at lines 88-97 (recycle bin, developer junk, or generic scan),
whose outcome depends only on the rule and the external world.  The progress
notification (lines 84-86) is emitted before the rule is scanned; `emitted`
records the notifications as delivered when a callback is configured. -/
def scanAllGo (arrive : Nat → Bool) (dispatch : Item → ScanResult) (total : Nat) :
    List Item → Nat → Bool → List (String × ScanResult) → List (String × Nat) → ScanAllState
  | [], _, b, acc, em => ⟨acc, em, b⟩
  | it :: rest, i, b, acc, em =>
    let b2 := b || arrive i
    if b2 then ⟨acc, em, b2⟩
    else scanAllGo arrive dispatch total rest (i + 1) b2
      (dictInsert acc it.id (dispatch it))
      (em ++ [(it.name, progressPercent i total)])

/-- The scanner object state: configured drive selector, results dict,
cancellation flag (scanner.py lines 40-43). -/
structure Scanner where
  drive : String
  results : List (String × ScanResult)
  cancelled : Bool

/-- `Scanner.cancel` (scanner.py lines 58-60). -/
def Scanner.cancel (s : Scanner) : Scanner := { s with cancelled := true }

/-- `Scanner.scan_all` (scanner.py lines 62-104): the flag is reset to `False`
(line 69) and the results dict cleared (line 70) before the loop, so the loop
starts from `b = false` and an empty dict regardless of the prior state; after
the loop the final `("扫描完成", 100)` notification is emitted unconditionally
(lines 101-102).  Returns the updated scanner state and the full notification
sequence. -/
def Scanner.scanAll (s : Scanner) (items : List Item) (arrive : Nat → Bool)
    (dispatch : Item → ScanResult) : Scanner × List (String × Nat) :=
  let st := scanAllGo arrive dispatch items.length items 0 false [] []
  ({ s with results := st.results, cancelled := st.flag },
   st.emitted ++ [("扫描完成", 100)])

/-! ### Supporting lemmas -/

theorem containsCB_nil_needle (l : List Char) : containsCB [] l = true := by
  induction l with
  | nil => rfl
  | cons c cs ih => simp [containsCB, ih, List.isPrefixOf]

theorem containsCB_append_right (nd h t : List Char) (hc : containsCB nd h = true) :
    containsCB nd (h ++ t) = true := by
  induction h with
  | nil =>
    simp [containsCB] at hc
    subst hc
    exact containsCB_nil_needle t
  | cons c cs ih =>
    simp only [containsCB, Bool.or_eq_true] at hc ⊢
    rcases hc with hp | hcs
    · left
      have hpre : nd <+: (c :: cs) := List.isPrefixOf_iff_prefix.mp hp
      exact List.isPrefixOf_iff_prefix.mpr (hpre.trans (List.prefix_append _ _))
    · right
      exact ih hcs

theorem toLowerStr_data_append (p q : String) :
    (toLowerStr (p ++ q)).data = (toLowerStr p).data ++ (toLowerStr q).data := by
  simp [toLowerStr, String.data_append]

theorem string_eq_empty_of_data_nil (p : String) (h : p.data = []) : p = "" := by
  cases p
  simp_all

/-- A path that already passes the substring filter still passes it after any
entry name is joined onto it: the old path is a string prefix of the new one. -/
theorem patSkip_joinPath (q p n : String) (h : patSkip (some q) p = false) :
    patSkip (some q) (joinPath p n) = false := by
  by_cases hq : q = ""
  · simp [patSkip, hq]
  · have hcb : containsCB (toLowerStr q).data (toLowerStr p).data = true := by
      simp only [patSkip, hq, ite_false] at h
      revert h
      cases containsCB (toLowerStr q).data (toLowerStr p).data <;> simp
    have hext : ∀ x : String,
        containsCB (toLowerStr q).data (toLowerStr (p ++ x)).data = true := by
      intro x
      rw [toLowerStr_data_append]
      exact containsCB_append_right _ _ _ hcb
    unfold joinPath
    match hl : p.data.getLast? with
    | some ch =>
      by_cases hsep : (isSepChar ch || ch = ':') = true
      · simp [hsep, patSkip, hq, hext n]
      · have hx := hext ("\\" ++ n)
        rw [← String.append_assoc] at hx
        simp [hsep, patSkip, hq, hx]
    | none =>
      have hpnil : p.data = [] := by
        cases hd : p.data with
        | nil => rfl
        | cons a as => rw [hd] at hl; simp [List.getLast?] at hl
      have hp : p = "" := string_eq_empty_of_data_nil p hpnil
      subst hp
      have hlq : (toLowerStr q).data = [] := by
        have : (toLowerStr "").data = [] := rfl
        rw [this] at hcb
        cases he : (toLowerStr q).data with
        | nil => rfl
        | cons a as => rw [he] at hcb; simp [containsCB, List.isEmpty] at hcb
      simp [patSkip, hq, hlq, containsCB_nil_needle]

@[simp] theorem patSkip_none (path : String) : patSkip none path = false := rfl

/- When the enclosing directory path already contains the pattern, the naive
per-file check is vacuous for every descendant, so it can be dropped. -/
mutual
theorem scanDirEntryNaive_pat_drop (e : Entry) :
    ∀ (c : Bool) (exts : Option (List String)) (q p : String) (r : ScanResult),
      patSkip (some q) p = false →
      scanDirEntryNaive c exts (some q) p r e = scanDirEntryNaive c exts none p r e := by
  intro c exts q p r h
  cases e with
  | file n sz =>
    have hf := patSkip_joinPath q p n h
    simp [scanDirEntryNaive, hf]
  | dir n mt cs =>
    simp only [scanDirEntryNaive]
    exact scanDirListNaive_pat_drop cs c exts q (joinPath p n) r (patSkip_joinPath q p n h)
  | denied n => rfl
theorem scanDirListNaive_pat_drop (es : EntryList) :
    ∀ (c : Bool) (exts : Option (List String)) (q p : String) (r : ScanResult),
      patSkip (some q) p = false →
      scanDirListNaive c exts (some q) p r es = scanDirListNaive c exts none p r es := by
  intro c exts q p r h
  cases es with
  | nil => rfl
  | cons e es2 =>
    simp only [scanDirListNaive]
    cases c with
    | true => rfl
    | false =>
      rw [scanDirEntryNaive_pat_drop e false exts q p r h]
      exact scanDirListNaive_pat_drop es2 false exts q p _ h
end

/- With no pattern configured, the optimised and the naive traversal are the
same function. -/
mutual
theorem scanDirEntry_none_eq_naive (e : Entry) :
    ∀ (c : Bool) (exts : Option (List String)) (p : String) (r : ScanResult),
      scanDirEntry c exts none p r e = scanDirEntryNaive c exts none p r e := by
  intro c exts p r
  cases e with
  | file n sz => rfl
  | dir n mt cs =>
    simp only [scanDirEntry, scanDirEntryNaive, patSkip, ite_false]
    exact scanDirList_none_eq_naive cs c exts (joinPath p n) r
  | denied n => rfl
theorem scanDirList_none_eq_naive (es : EntryList) :
    ∀ (c : Bool) (exts : Option (List String)) (p : String) (r : ScanResult),
      scanDirList c exts none p r es = scanDirListNaive c exts none p r es := by
  intro c exts p r
  cases es with
  | nil => rfl
  | cons e es2 =>
    simp only [scanDirList, scanDirListNaive]
    cases c with
    | true => rfl
    | false =>
      rw [scanDirEntry_none_eq_naive e false exts p r]
      exact scanDirList_none_eq_naive es2 false exts p _
end

/- The directory-level pattern optimisation computes the naive per-file
semantics on every tree. -/
mutual
theorem scanDirEntry_eq_naive (e : Entry) :
    ∀ (c : Bool) (exts : Option (List String)) (pat : Option String) (p : String)
      (r : ScanResult),
      scanDirEntry c exts pat p r e = scanDirEntryNaive c exts pat p r e := by
  intro c exts pat p r
  cases e with
  | file n sz => rfl
  | dir n mt cs =>
    cases pat with
    | none => exact scanDirEntry_none_eq_naive (.dir n mt cs) c exts p r
    | some q =>
      simp only [scanDirEntry, scanDirEntryNaive]
      by_cases hps : patSkip (some q) (joinPath p n) = true
      · simp only [hps, ite_true]
        exact scanDirList_eq_naive cs c exts (some q) (joinPath p n) r
      · have hps2 : patSkip (some q) (joinPath p n) = false := by
          revert hps; cases patSkip (some q) (joinPath p n) <;> simp
        simp only [hps2, Bool.false_eq_true, ite_false]
        rw [scanDirList_none_eq_naive cs c exts (joinPath p n) r]
        exact (scanDirListNaive_pat_drop cs c exts q (joinPath p n) r hps2).symm
  | denied n => rfl
theorem scanDirList_eq_naive (es : EntryList) :
    ∀ (c : Bool) (exts : Option (List String)) (pat : Option String) (p : String)
      (r : ScanResult),
      scanDirList c exts pat p r es = scanDirListNaive c exts pat p r es := by
  intro c exts pat p r
  cases es with
  | nil => rfl
  | cons e es2 =>
    simp only [scanDirList, scanDirListNaive]
    cases c with
    | true => rfl
    | false =>
      rw [scanDirEntry_eq_naive e false exts pat p r]
      exact scanDirList_eq_naive es2 false exts pat p _
end

/- The generic traversal only ever adds to the accumulator. -/
mutual
theorem scanDirEntry_mono (e : Entry) :
    ∀ (c : Bool) (exts : Option (List String)) (pat : Option String) (p : String)
      (r : ScanResult),
      r.total_size ≤ (scanDirEntry c exts pat p r e).total_size ∧
      r.file_count ≤ (scanDirEntry c exts pat p r e).file_count ∧
      r.files <+: (scanDirEntry c exts pat p r e).files := by
  intro c exts pat p r
  cases e with
  | file n sz =>
    simp only [scanDirEntry]
    split
    · exact ⟨Nat.le_refl _, Nat.le_refl _, List.prefix_rfl⟩
    · split
      · exact ⟨Nat.le_refl _, Nat.le_refl _, List.prefix_rfl⟩
      · exact ⟨Nat.le_add_right _ _, Nat.le_add_right _ _, List.prefix_append _ _⟩
  | dir n mt cs =>
    simp only [scanDirEntry]
    split
    · exact scanDirList_mono cs c exts pat (joinPath p n) r
    · exact scanDirList_mono cs c exts none (joinPath p n) r
  | denied n => exact ⟨Nat.le_refl _, Nat.le_refl _, List.prefix_rfl⟩
theorem scanDirList_mono (es : EntryList) :
    ∀ (c : Bool) (exts : Option (List String)) (pat : Option String) (p : String)
      (r : ScanResult),
      r.total_size ≤ (scanDirList c exts pat p r es).total_size ∧
      r.file_count ≤ (scanDirList c exts pat p r es).file_count ∧
      r.files <+: (scanDirList c exts pat p r es).files := by
  intro c exts pat p r
  cases es with
  | nil => exact ⟨Nat.le_refl _, Nat.le_refl _, List.prefix_rfl⟩
  | cons e es2 =>
    simp only [scanDirList]
    cases c with
    | true => exact ⟨Nat.le_refl _, Nat.le_refl _, List.prefix_rfl⟩
    | false =>
      obtain ⟨h1, h2, h3⟩ := scanDirEntry_mono e false exts pat p r
      obtain ⟨g1, g2, g3⟩ := scanDirList_mono es2 false exts pat p (scanDirEntry false exts pat p r e)
      exact ⟨h1.trans g1, h2.trans g2, h3.trans g3⟩
end

/- The developer-junk traversal only ever adds to the accumulator. -/
mutual
theorem depthEntry_mono (e : Entry) :
    ∀ (c : Bool) (junk skipd : List String) (now threshold : Int) (maxDepth depth : Nat)
      (p : String) (r : ScanResult),
      r.total_size ≤ (depthEntry c junk skipd now threshold maxDepth depth p r e).total_size ∧
      r.file_count ≤ (depthEntry c junk skipd now threshold maxDepth depth p r e).file_count ∧
      r.files <+: (depthEntry c junk skipd now threshold maxDepth depth p r e).files := by
  intro c junk skipd now threshold maxDepth depth p r
  cases e with
  | file n sz => exact ⟨Nat.le_refl _, Nat.le_refl _, List.prefix_rfl⟩
  | dir n mt cs =>
    simp only [depthEntry]
    split
    · exact ⟨Nat.le_add_right _ _, Nat.le_add_right _ _, List.prefix_append _ _⟩
    · split
      · exact ⟨Nat.le_refl _, Nat.le_refl _, List.prefix_rfl⟩
      · exact depthList_mono cs c junk skipd now threshold maxDepth (depth + 1) (joinPath p n) r
  | denied n => exact ⟨Nat.le_refl _, Nat.le_refl _, List.prefix_rfl⟩
theorem depthList_mono (es : EntryList) :
    ∀ (c : Bool) (junk skipd : List String) (now threshold : Int) (maxDepth depth : Nat)
      (p : String) (r : ScanResult),
      r.total_size ≤ (depthList c junk skipd now threshold maxDepth depth p r es).total_size ∧
      r.file_count ≤ (depthList c junk skipd now threshold maxDepth depth p r es).file_count ∧
      r.files <+: (depthList c junk skipd now threshold maxDepth depth p r es).files := by
  intro c junk skipd now threshold maxDepth depth p r
  cases es with
  | nil => exact ⟨Nat.le_refl _, Nat.le_refl _, List.prefix_rfl⟩
  | cons e es2 =>
    simp only [depthList]
    split
    · exact ⟨Nat.le_refl _, Nat.le_refl _, List.prefix_rfl⟩
    · obtain ⟨h1, h2, h3⟩ := depthEntry_mono e c junk skipd now threshold maxDepth depth p r
      obtain ⟨g1, g2, g3⟩ := depthList_mono es2 c junk skipd now threshold maxDepth depth p
        (depthEntry c junk skipd now threshold maxDepth depth p r e)
      exact ⟨h1.trans g1, h2.trans g2, h3.trans g3⟩
end

theorem dictLookup_insert_none (acc : List (String × ScanResult)) (k x : String)
    (v : ScanResult) (hx : dictLookup acc x = none) (hk : k ≠ x) :
    dictLookup (dictInsert acc k v) x = none := by
  induction acc with
  | nil => simp [dictInsert, dictLookup, hk]
  | cons kv rest ih =>
    obtain ⟨k0, v0⟩ := kv
    simp only [dictLookup] at hx
    by_cases h0x : k0 = x
    · simp [h0x] at hx
    · simp only [h0x, ite_false] at hx
      simp only [dictInsert]
      by_cases h0k : k0 = k
      · simp [h0k, dictLookup, h0x, hx, hk]
      · simp [h0k, dictLookup, h0x, ih hx]

/-- An item of the rule list is dispatched only while no cancellation has been
observed; if every dispatched item has a different id than `x`, then `x` is
absent from the final results dict. -/
theorem scanAllGo_lookup_none (arrive : Nat → Bool) (dispatch : Item → ScanResult)
    (total : Nat) :
    ∀ (its : List Item) (i : Nat) (b : Bool) (acc : List (String × ScanResult))
      (em : List (String × Nat)) (x : String),
      dictLookup acc x = none →
      (∀ (p : Nat) (hp : p < its.length),
        (b = false ∧ ∀ l, l ≤ p → arrive (i + l) = false) → (its.get ⟨p, hp⟩).id ≠ x) →
      dictLookup (scanAllGo arrive dispatch total its i b acc em).results x = none := by
  intro its
  induction its with
  | nil =>
    intro i b acc em x hacc _
    exact hacc
  | cons it rest ih =>
    intro i b acc em x hacc hids
    simp only [scanAllGo]
    by_cases hb2 : (b || arrive i) = true
    · simp only [hb2, ite_true]
      exact hacc
    · have hb : b = false := by revert hb2; cases b <;> simp
      have hai : arrive i = false := by revert hb2; cases arrive i <;> simp
      simp only [hb2, ite_false, Bool.false_eq_true]
      apply ih (i + 1) false (dictInsert acc it.id (dispatch it)) _ x
      · apply dictLookup_insert_none acc it.id x (dispatch it) hacc
        refine hids 0 (by simp) ⟨hb, fun l hl => ?_⟩
        have hl0 : l = 0 := Nat.le_zero.mp hl
        subst hl0
        simpa using hai
      · intro p hp hcond
        obtain ⟨-, hfor⟩ := hcond
        refine hids (p + 1) (by simpa using Nat.succ_lt_succ hp) ⟨hb, fun l hl => ?_⟩
        cases l with
        | zero => simpa using hai
        | succ l2 =>
          have : i + (l2 + 1) = i + 1 + l2 := by omega
          rw [this]
          exact hfor l2 (Nat.succ_le_succ_iff.mp hl)

theorem scanAllGo_emitted_mono (arrive : Nat → Bool) (dispatch : Item → ScanResult)
    (total : Nat) :
    ∀ (its : List Item) (i : Nat) (b : Bool) (acc : List (String × ScanResult))
      (em : List (String × Nat)),
      ∃ t, (scanAllGo arrive dispatch total its i b acc em).emitted = em ++ t := by
  intro its
  induction its with
  | nil => intro i b acc em; exact ⟨[], by simp [scanAllGo]⟩
  | cons it rest ih =>
    intro i b acc em
    simp only [scanAllGo]
    by_cases hb2 : (b || arrive i) = true
    · exact ⟨[], by simp [hb2]⟩
    · simp only [hb2, ite_false, Bool.false_eq_true]
      obtain ⟨t, ht⟩ := ih (i + 1) false (dictInsert acc it.id (dispatch it))
        (em ++ [(it.name, progressPercent i total)])
      exact ⟨(it.name, progressPercent i total) :: t, by rw [ht, List.append_assoc]; rfl⟩

/-- While no cancellation has been observed through position `j`, the `j`-th
emitted notification is the `j`-th item's name with its computed percentage. -/
theorem scanAllGo_emitted_get (arrive : Nat → Bool) (dispatch : Item → ScanResult)
    (total : Nat) :
    ∀ (its : List Item) (i0 : Nat) (acc : List (String × ScanResult))
      (em : List (String × Nat)) (j : Nat) (hj : j < its.length),
      (∀ l, l ≤ j → arrive (i0 + l) = false) →
      (scanAllGo arrive dispatch total its i0 false acc em).emitted.get? (em.length + j)
        = some ((its.get ⟨j, hj⟩).name, progressPercent (i0 + j) total) := by
  intro its
  induction its with
  | nil => intro i0 acc em j hj; exact absurd hj (by simp)
  | cons it rest ih =>
    intro i0 acc em j hj hfor
    have hai : arrive i0 = false := by simpa using hfor 0 (Nat.zero_le _)
    simp only [scanAllGo, hai, Bool.or_false, ite_false, Bool.false_eq_true]
    cases j with
    | zero =>
      obtain ⟨t, ht⟩ := scanAllGo_emitted_mono arrive dispatch total rest (i0 + 1) false
        (dictInsert acc it.id (dispatch it)) (em ++ [(it.name, progressPercent i0 total)])
      rw [ht, List.append_assoc]
      have hlen : em.length + 0 = em.length := rfl
      rw [hlen, List.get?_append_right (Nat.le_refl em.length)]
      simp
    | succ j2 =>
      have hj2 : j2 < rest.length := Nat.succ_lt_succ_iff.mp (by simpa using hj)
      have hfor2 : ∀ l, l ≤ j2 → arrive (i0 + 1 + l) = false := by
        intro l hl
        have : i0 + 1 + l = i0 + (l + 1) := by omega
        rw [this]
        exact hfor (l + 1) (Nat.succ_le_succ hl)
      have := ih (i0 + 1) (dictInsert acc it.id (dispatch it))
        (em ++ [(it.name, progressPercent i0 total)]) j2 hj2 hfor2
      have hlen : (em ++ [(it.name, progressPercent i0 total)]).length + j2
          = em.length + (j2 + 1) := by simp; omega
      rw [hlen] at this
      rw [this]
      have hidx : i0 + 1 + j2 = i0 + (j2 + 1) := by omega
      rw [hidx]
      rfl

/-! ### Concrete fixtures for witnesses and counterexamples -/

/-- An empty `ScanResult` accumulator, as built at the top of each strategy. -/
def blank0 : ScanResult :=
  { item_id := "x", item_name := "x", total_size := 0, file_count := 0,
    files := [], error := none }

/-- An empty developer-junk accumulator. -/
def blankDev : ScanResult :=
  { item_id := "dev", item_name := "开发者垃圾", total_size := 0, file_count := 0,
    files := [], error := none }

/-- A minimal generic rule. -/
def item0 : Item :=
  { id := "x", name := "x", special := none, paths := [], extensions := none,
    pattern := none }

/-- A second rule with distinct id and name. -/
def itemA : Item :=
  { id := "a", name := "临时文件", special := none, paths := [], extensions := none,
    pattern := none }

/-- A third rule with distinct id and name. -/
def itemB : Item :=
  { id := "b", name := "回收站", special := some "recycle_bin", paths := [],
    extensions := none, pattern := none }

/-- A freshly constructed scanner. -/
def scanner0 : Scanner := { drive := "C:", results := [], cancelled := false }

/-- A drive listing holding one junk-named directory with a recent
modification time whose only child is a junk-named directory with a stale
modification time containing a 10-byte file. -/
def c1tree : EntryList :=
  .cons (.dir "node_modules" 999999950
    (.cons (.dir "node_modules" 0 (.cons (.file "a.txt" 10) .nil)) .nil)) .nil

/-! ### Claims -/

/-- C1 (counterexample): with junk set `{node_modules}`, age threshold `100`
seconds and `now = 10^9`, the drive root of `c1tree` holds a junk-named
directory of age `50` (not exceeding the threshold).  The claim says this
entry contributes nothing and is not descended into, so the scan should leave
the accumulator unchanged; the code instead descends into it and counts the
stale inner junk directory, appending a path that lies inside the recent one. -/
theorem c1_counterexample :
    depthList false ["node_modules"] skipDirs 1000000000 100 6 0 "C:\\" blankDev c1tree
      = { blankDev with
          total_size := 10, file_count := 1,
          files := ["C:\\node_modules\\node_modules"] }
  ∧ depthList false ["node_modules"] skipDirs 1000000000 100 6 0 "C:\\" blankDev c1tree
      ≠ blankDev := by
  constructor <;> decide

/-- C1 (amended): a directory entry whose lower-cased name is in the junk set
but whose age does not exceed the threshold contributes nothing directly to
the `ScanResult`, but it is not exempt from traversal: it falls through to the
ordinary skip test, so it is skipped only when its name is in the skip set or
begins with a dot, and otherwise the scanner descends into it at depth + 1. -/
theorem c1_recent_junk_descends (c : Bool) (junk skipd : List String)
    (now threshold : Int) (maxDepth depth : Nat) (p : String) (r : ScanResult)
    (n : String) (mt : Int) (cs : EntryList)
    (hjunk : junk.contains (toLowerStr n) = true)
    (hrecent : ¬ threshold < now - mt) :
    depthEntry c junk skipd now threshold maxDepth depth p r (.dir n mt cs)
      = if skipd.contains (toLowerStr n) || headIsDot n then r
        else depthList c junk skipd now threshold maxDepth (depth + 1) (joinPath p n) r cs := by
  simp only [depthEntry]
  rw [if_neg (fun h => hrecent h.2)]

/-- C1 (witness): the amended theorem applied to a concrete recent junk-named
directory. -/
theorem c1_witness :
    (["node_modules"].contains (toLowerStr "node_modules") = true)
  ∧ (¬ (8640000 : Int) < 1000000000 - 999999950)
  ∧ depthEntry false ["node_modules"] skipDirs 1000000000 8640000 6 0 "C:\\" blankDev
      (.dir "node_modules" 999999950 .nil)
    = (if skipDirs.contains (toLowerStr "node_modules") || headIsDot "node_modules" then blankDev
       else depthList false ["node_modules"] skipDirs 1000000000 8640000 6 1
         (joinPath "C:\\" "node_modules") blankDev .nil) :=
  ⟨by decide, by decide,
    c1_recent_junk_descends false ["node_modules"] skipDirs 1000000000 8640000 6 0 "C:\\"
      blankDev "node_modules" 999999950 .nil (by decide) (by decide)⟩

/-- C2: a directory entry whose lower-cased name is in the junk set and whose
age exceeds the threshold is treated as one match: the recursively-computed
total size of its subtree is added, `file_count` grows by exactly one, its
path is appended, and the scanner does not descend into it (the result is
exactly the one-step update, with no contribution from its contents beyond
the size sum). -/
theorem c2_stale_junk_counted (c : Bool) (junk skipd : List String)
    (now threshold : Int) (maxDepth depth : Nat) (p : String) (r : ScanResult)
    (n : String) (mt : Int) (cs : EntryList)
    (hjunk : junk.contains (toLowerStr n) = true)
    (hstale : threshold < now - mt) :
    depthEntry c junk skipd now threshold maxDepth depth p r (.dir n mt cs)
      = { r with
          total_size := r.total_size + getDirSizeForScan cs,
          file_count := r.file_count + 1,
          files := r.files ++ [joinPath p n] } := by
  simp only [depthEntry]
  rw [if_pos ⟨hjunk, hstale⟩]

/-- C2 (witness): a stale `__PYCACHE__` directory (case-insensitive match)
holding 10 bytes across a nested subtree is counted as one unit of size 10. -/
theorem c2_witness :
    (["__pycache__"].contains (toLowerStr "__PYCACHE__") = true)
  ∧ ((8640000 : Int) < 1000000000 - 0)
  ∧ depthEntry false ["__pycache__"] skipDirs 1000000000 8640000 6 0 "C:\\" blankDev
      (.dir "__PYCACHE__" 0
        (.cons (.file "a.pyc" 4) (.cons (.dir "sub" 0 (.cons (.file "b.pyc" 6) .nil)) .nil)))
    = { blankDev with
        total_size := 10, file_count := 1, files := ["C:\\__PYCACHE__"] } := by
  refine ⟨by decide, by decide, ?_⟩
  have h := c2_stale_junk_counted false ["__pycache__"] skipDirs 1000000000 8640000 6 0 "C:\\"
    blankDev "__PYCACHE__" 0
    (.cons (.file "a.pyc" 4) (.cons (.dir "sub" 0 (.cons (.file "b.pyc" 6) .nil)) .nil))
    (by decide) (by decide)
  rw [h]
  decide

/-- C3 (counterexample): the template `D:\Windows\Temp` is drive-anchored, yet
with selector `E:` the code returns it unchanged, while the claim requires the
drive letter to be substituted. -/
theorem c3_counterexample :
    scanItemTargets "E:" ["C:", "D:"] "D:\\Windows\\Temp" = ["D:\\Windows\\Temp"]
  ∧ specScanItemTargets "E:" ["C:", "D:"] "D:\\Windows\\Temp" = ["E:\\Windows\\Temp"]
  ∧ scanItemTargets "E:" ["C:", "D:"] "D:\\Windows\\Temp"
      ≠ specScanItemTargets "E:" ["C:", "D:"] "D:\\Windows\\Temp" := by
  refine ⟨?_, ?_, ?_⟩ <;> decide

/-- C3 (amended): only templates that begin, case-insensitively, with the
literal prefix `c:` are rewritten — into one concrete path per available drive
when the selector is `ALL`, or to the one selected drive otherwise; every
other template, including ones anchored at another drive letter, passes
through unchanged.  The spec's own examples hold for `C:`-anchored templates. -/
theorem c3_c_anchored_rewrite :
    (∀ (drive : String) (avail : List String) (tmpl : String),
        scanItemTargets drive avail tmpl
          = if startsWithCB "c:" (toLowerStr tmpl) then
              (if drive = "ALL" then avail.map (fun d => d ++ dropStr 2 tmpl)
               else [drive ++ dropStr 2 tmpl])
            else [tmpl])
  ∧ (∀ avail : List String,
        scanItemTargets "D:" avail "C:\\Windows\\Temp" = ["D:\\Windows\\Temp"])
  ∧ scanItemTargets "ALL" ["C:", "D:"] "C:\\Windows\\Temp"
      = ["C:\\Windows\\Temp", "D:\\Windows\\Temp"] := by
  refine ⟨?_, ?_, by decide⟩
  · intro drive avail tmpl
    unfold scanItemTargets
    by_cases hd : drive = "ALL" <;>
      by_cases hs : startsWithCB "c:" (toLowerStr tmpl) = true <;>
        simp [hd, hs]
  · intro avail
    rfl

/-- Modelled from the claim C4's wording: a case-insensitive suffix match
against the allowlist accepts a file when its lower-cased suffix equals some
lower-cased allowlist entry. -/
def specExtAccept (allow : List String) (path : String) : Bool :=
  (allow.map toLowerStr).contains (toLowerStr (pySuffix path))

/-- C4 (counterexample): with allowlist `[".TMP"]` the file `FOO.TMP` is a
case-insensitive suffix match, yet the code skips it (only the file's suffix
is lower-cased; allowlist entries are matched verbatim), so the claimed
if-and-only-if fails. -/
theorem c4_counterexample :
    scanDirEntry false (some [".TMP"]) none "C:\\" blank0 (.file "FOO.TMP" 5) = blank0
  ∧ specExtAccept [".TMP"] "C:\\FOO.TMP" = true := by
  constructor <;> decide

/-- C4 (amended): a regular file is counted if and only if it passes the
extension filter — its lower-cased suffix is literally an element of the
allowlist, which is case-insensitive in the file name whenever the configured
entries are lower-case — and the substring-pattern filter; on a match the size
is added, the count incremented by one and the path appended.  `FOO.TMP`
matches the entry `.tmp`, and when both filters are configured both must
pass. -/
theorem c4_file_filter :
    (∀ (exts : Option (List String)) (pat : Option String) (p : String) (r : ScanResult)
       (n : String) (sz : Nat),
        scanDirEntry false exts pat p r (.file n sz)
          = if extSkip exts (joinPath p n) || patSkip pat (joinPath p n) then r
            else { r with
                   total_size := r.total_size + sz, file_count := r.file_count + 1,
                   files := r.files ++ [joinPath p n] })
  ∧ scanDirEntry false (some [".tmp"]) none "C:\\" blank0 (.file "FOO.TMP" 7)
      = { blank0 with total_size := 7, file_count := 1, files := ["C:\\FOO.TMP"] }
  ∧ scanDirEntry false (some [".tmp"]) (some "cache") "C:\\" blank0 (.file "FOO.TMP" 7)
      = blank0 := by
  refine ⟨?_, by decide, by decide⟩
  intro exts pat p r n sz
  simp only [scanDirEntry]
  by_cases h1 : extSkip exts (joinPath p n) = true <;>
    by_cases h2 : patSkip pat (joinPath p n) = true <;>
      simp [h1, h2]

/-- C6: the recycle-bin probe with a non-success status code sets the error
message and leaves size and count at zero; with a success code it takes size
and count from the query's reported aggregates. -/
theorem c6_recycle_probe (itemId itemName : String) (ret : Int) (size num : Nat) :
    (ret ≠ 0 → scanRecycleBin itemId itemName (.ok ret size num)
        = { item_id := itemId, item_name := itemName, total_size := 0, file_count := 0,
            files := [], error := some "无法获取回收站信息" })
  ∧ (ret = 0 → scanRecycleBin itemId itemName (.ok ret size num)
        = { item_id := itemId, item_name := itemName, total_size := size,
            file_count := num, files := [], error := none }) := by
  constructor
  · intro h
    simp [scanRecycleBin, h]
  · intro h
    simp [scanRecycleBin, h]

/-- C6 (witness): the theorem applied to one failing and one successful
query. -/
theorem c6_witness :
    scanRecycleBin "recycle_bin" "回收站" (.ok 1 0 0)
      = { item_id := "recycle_bin", item_name := "回收站", total_size := 0, file_count := 0,
          files := [], error := some "无法获取回收站信息" }
  ∧ scanRecycleBin "recycle_bin" "回收站" (.ok 0 123 4)
      = { item_id := "recycle_bin", item_name := "回收站", total_size := 123,
          file_count := 4, files := [], error := none } :=
  ⟨(c6_recycle_probe "recycle_bin" "回收站" 1 0 0).1 (by decide),
   (c6_recycle_probe "recycle_bin" "回收站" 0 123 4).2 rfl⟩

/-- C7: within one scan pass each strategy only ever increases
`total_size` and `file_count`, and only ever appends to `files`: the generic
traversal and the developer-junk traversal leave the incoming accumulator as a
lower bound (`files` a prefix), and the recycle-bin probe only moves its
freshly-zeroed fields upward. -/
theorem c7_fields_monotone :
    (∀ (c : Bool) (exts : Option (List String)) (pat : Option String) (p : String)
       (r : ScanResult) (es : EntryList),
        r.total_size ≤ (scanDirList c exts pat p r es).total_size
      ∧ r.file_count ≤ (scanDirList c exts pat p r es).file_count
      ∧ r.files <+: (scanDirList c exts pat p r es).files)
  ∧ (∀ (c : Bool) (junk skipd : List String) (now threshold : Int)
       (maxDepth depth : Nat) (p : String) (r : ScanResult) (es : EntryList),
        r.total_size ≤ (depthList c junk skipd now threshold maxDepth depth p r es).total_size
      ∧ r.file_count ≤ (depthList c junk skipd now threshold maxDepth depth p r es).file_count
      ∧ r.files <+: (depthList c junk skipd now threshold maxDepth depth p r es).files)
  ∧ (∀ (itemId itemName : String) (q : RecycleQuery),
        0 ≤ (scanRecycleBin itemId itemName q).total_size
      ∧ 0 ≤ (scanRecycleBin itemId itemName q).file_count
      ∧ [] <+: (scanRecycleBin itemId itemName q).files) :=
  ⟨fun c exts pat p r es => scanDirList_mono es c exts pat p r,
   fun c junk skipd now threshold maxDepth depth p r es =>
     depthList_mono es c junk skipd now threshold maxDepth depth p r,
   fun _ _ _ => ⟨Nat.zero_le _, Nat.zero_le _, List.nil_prefix⟩⟩

/-- C9: the directory-level pattern optimisation — recursing with the filter
disabled once the subdirectory's full path contains the pattern — produces,
on every filesystem tree, path, accumulator and filter configuration, exactly
the `ScanResult` of the naive semantics that checks the pattern against every
file's full path individually. -/
theorem c9_pattern_opt_equiv (c : Bool) (exts : Option (List String))
    (pat : Option String) (p : String) (r : ScanResult) (es : EntryList) :
    scanDirList c exts pat p r es = scanDirListNaive c exts pat p r es :=
  scanDirList_eq_naive es c exts pat p r

/-- C5: when the cancellation flag is observed true at the top of the per-rule
loop, no further rule is dispatched: provided the configured rule ids are
pairwise distinct, every rule at or beyond the position of an observed
cancellation is entirely absent from the returned results mapping. -/
theorem c5_cancel_unreached_absent (s : Scanner) (items : List Item)
    (arrive : Nat → Bool) (dispatch : Item → ScanResult) (j i : Nat)
    (hj : arrive j = true) (hji : j ≤ i) (hi : i < items.length)
    (hnd : (items.map Item.id).Nodup) :
    dictLookup (Scanner.scanAll s items arrive dispatch).1.results
      ((items.get ⟨i, hi⟩).id) = none := by
  have hgo : (Scanner.scanAll s items arrive dispatch).1.results
      = (scanAllGo arrive dispatch items.length items 0 false [] []).results := rfl
  rw [hgo]
  apply scanAllGo_lookup_none arrive dispatch items.length items 0 false [] []
    ((items.get ⟨i, hi⟩).id) rfl
  intro p hp hcond
  obtain ⟨-, hfor⟩ := hcond
  have hpj : p < j := by
    by_contra hle
    push_neg at hle
    have hf := hfor j hle
    rw [Nat.zero_add, hj] at hf
    cases hf
  have hpi : p ≠ i := by omega
  intro heq
  apply hpi
  have h1 : (items.map Item.id).get ⟨p, by simpa using hp⟩
      = (items.map Item.id).get ⟨i, by simpa using hi⟩ := by
    rw [List.get_map, List.get_map]
    exact heq
  have h2 := (hnd.get_inj_iff).mp h1
  exact congrArg Fin.val h2

/-- C5 (witness): with two distinct rules and a cancellation observed at the
top of iteration 1, the second rule's category is absent from the results. -/
theorem c5_witness :
    ((fun l => decide (1 ≤ l)) 1 = true)
  ∧ (([itemA, itemB].map Item.id).Nodup)
  ∧ dictLookup (Scanner.scanAll scanner0 [itemA, itemB] (fun l => decide (1 ≤ l))
      (fun _ => blank0)).1.results "b" = none := by
  refine ⟨by decide, by decide, ?_⟩
  have h := c5_cancel_unreached_absent scanner0 [itemA, itemB] (fun l => decide (1 ≤ l))
    (fun _ => blank0) 1 1 (by decide) (Nat.le_refl 1) (by decide) (by decide)
  exact h

/-- C8 (counterexample): with 50 configured rules and no cancellation, the
progress notification emitted before the rule at index 29 carries percent
`57`, computed by the float expression `int((29 / 50) * 100)`, while the
claimed formula gives `floor(100 * 29 / 50) = 58`. -/
theorem c8_counterexample :
    (Scanner.scanAll scanner0 (List.replicate 50 item0) (fun _ => false)
        (fun _ => blank0)).2.get? 29 = some ("x", 57)
  ∧ (100 * 29) / 50 = 58
  ∧ progressPercent 29 50 ≠ (100 * 29) / 50 := by
  refine ⟨?_, ?_, ?_⟩ <;> decide

/-- C8 (amended): for every rule at zero-based index `i` among `n` rules that
is dispatched (no cancellation observed through position `i`), the `i`-th
notification is `(display_name, int((i / n) * 100))` with the percentage
computed in binary64 float arithmetic — which can fall one below
`floor(100 * i / n)` — and after the loop a final `("扫描完成", 100)`
notification is emitted regardless of cancellation state. -/
theorem c8_progress_emissions :
    (∀ (s : Scanner) (items : List Item) (arrive : Nat → Bool)
       (dispatch : Item → ScanResult) (i : Nat) (hi : i < items.length),
        (∀ l, l ≤ i → arrive l = false) →
        (Scanner.scanAll s items arrive dispatch).2.get? i
          = some ((items.get ⟨i, hi⟩).name, progressPercent i items.length))
  ∧ (∀ (s : Scanner) (items : List Item) (arrive : Nat → Bool)
       (dispatch : Item → ScanResult),
        (Scanner.scanAll s items arrive dispatch).2.getLast? = some ("扫描完成", 100)) := by
  constructor
  · intro s items arrive dispatch i hi hfor
    have hfor0 : ∀ l, l ≤ i → arrive (0 + l) = false := by
      intro l hl
      rw [Nat.zero_add]
      exact hfor l hl
    have hget := scanAllGo_emitted_get arrive dispatch items.length items 0 [] [] i hi hfor0
    rw [Nat.zero_add] at hget
    have hlen : ([] : List (String × Nat)).length + i = i := by simp
    rw [hlen] at hget
    have hlt : i < (scanAllGo arrive dispatch items.length items 0 false [] []).emitted.length := by
      rcases List.get?_eq_some.mp hget with ⟨hw, -⟩
      exact hw
    show ((scanAllGo arrive dispatch items.length items 0 false [] []).emitted
        ++ [("扫描完成", 100)]).get? i = _
    rw [List.get?_append hlt]
    exact hget
  · intro s items arrive dispatch
    exact List.getLast?_concat _

/-- C8 (witness): the amended theorem applied to a two-rule list with no
cancellation; the notification before the rule at index 1 is `("x", 50)`. -/
theorem c8_witness :
    ((∀ l, l ≤ 1 → (fun _ : Nat => false) l = false))
  ∧ (Scanner.scanAll scanner0 [item0, item0] (fun _ => false)
      (fun _ => blank0)).2.get? 1 = some ("x", 50) := by
  refine ⟨fun l _ => rfl, ?_⟩
  have h := c8_progress_emissions.1 scanner0 [item0, item0] (fun _ => false)
    (fun _ => blank0) 1 (by decide) (fun l _ => rfl)
  rw [h]
  decide

/-- C10: `scan_all` resets the cancellation flag before dispatching any rule,
so a `cancel()` issued before the run starts has no effect at all on that
run's results and notifications; only a cancellation that arrives once the
run has begun stops it (an arrival before the first flag read empties the
result mapping). -/
theorem c10_reset_before_run :
    (∀ (s : Scanner) (items : List Item) (arrive : Nat → Bool)
       (dispatch : Item → ScanResult),
        Scanner.scanAll (Scanner.cancel s) items arrive dispatch
          = Scanner.scanAll s items arrive dispatch)
  ∧ (∀ (s : Scanner) (items : List Item) (arrive : Nat → Bool)
       (dispatch : Item → ScanResult),
        arrive 0 = true → (Scanner.scanAll s items arrive dispatch).1.results = []) := by
  constructor
  · intro s items arrive dispatch
    cases s
    rfl
  · intro s items arrive dispatch h
    cases items with
    | nil => rfl
    | cons it rest => simp [Scanner.scanAll, scanAllGo, h]

/-- C10 (witness): the theorem applied to a cancellation that arrives before
the first flag read of a one-rule run. -/
theorem c10_witness :
    ((fun _ : Nat => true) 0 = true)
  ∧ (Scanner.scanAll scanner0 [item0] (fun _ => true) (fun _ => blank0)).1.results = [] :=
  ⟨rfl, c10_reset_before_run.2 scanner0 [item0] (fun _ => true) (fun _ => blank0) rfl⟩

end CDriveCleaner
